import Mathlib

set_option autoImplicit false
set_option linter.unusedSectionVars false
set_option linter.unusedVariables false

/-!
Verification development for the feed-polling and per-destination dedup/dispatch
engine of this repository (source files: scheduler.py and the force-check route
of main_web.py).

Modelling conventions:
* The persisted dedup file `sent_articles.yaml` is modelled by `DedupFile`:
  it can be missing (FileNotFoundError branch), present but empty
  (yaml.safe_load returns None, replaced by `{}` via `or {}`), present but
  unparseable (yaml.safe_load or the subsequent attribute access raises, which
  lands in the generic `except Exception` handler), or a parsed dictionary,
  modelled as a function from webhook URL to the optional stored id list.
* Article ids are strings in the source (`entry.get('id') or entry.get('link')`),
  compared with Python string equality and sorted lexicographically by
  `sorted(...)`.  The development is generic over a linearly ordered id type
  `α`; the program instantiates it at `String`, concrete counterexamples
  instantiate it at `Nat` (numeric order stands in for the lexicographic order
  on, say, zero-padded id strings, which orders the same way).
* Machine integers do not occur: Python ints are unbounded, timestamps are
  modelled as `Int` seconds (struct_time has second granularity and
  `time.mktime` returns a whole number of seconds).
* File locking (`fcntl.flock`) serialises each call; the model gives the
  sequential semantics of one locked call.
-/

/-- The prune limit: `sorted(list(...))[-10000:]` in the source keeps at most
the last 10000 elements of the sorted list. -/
def CAP : Nat := 10000

/-- The possible observable states of the persisted `sent_articles.yaml` file. -/
inductive DedupFile (α : Type) where
  | missing : DedupFile α
  | emptyFile : DedupFile α
  | corrupt : DedupFile α
  | stored (m : String → Option (List α)) : DedupFile α

/-- The id list persisted for destination `d`, if any (a parsed dictionary's
entry; a missing, empty or unparseable file has no entries). -/
def entryOf {α : Type} (f : DedupFile α) (d : String) : Option (List α) :=
  match f with
  | .stored m => m d
  | _ => none

/-- The set of ids recorded as already sent to destination `d`:
`set(all_webhooks_memory.get(webhook_url, []))` in the source. -/
def sentOf {α : Type} [DecidableEq α] (f : DedupFile α) (d : String) : Finset α :=
  ((entryOf f d).getD []).toFinset

variable {α : Type} [LinearOrder α] [DecidableEq α]

/-- Python's `lst[-10000:]`: the last `CAP` elements of a list. -/
def lastCap (l : List α) : List α := l.drop (l.length - CAP)

/-- Lines 62-92 of scheduler.py: the body of
`filter_and_update_sent_articles_for_webhook` once the file has been opened and
parsed to the dictionary `m` (`orig` is the file state, returned unchanged when
nothing new is found and hence nothing is written). -/
def reserveParsed (orig : DedupFile α) (m : String → Option (List α))
    (webhook_url : String) (article_ids_to_check : List α) :
    Finset α × DedupFile α :=
  let sent_articles_set : Finset α := ((m webhook_url).getD []).toFinset
  let genuinely_new_ids : Finset α := article_ids_to_check.toFinset \ sent_articles_set
  if genuinely_new_ids = ∅ then (∅, orig)
  else
    let updated_sent_articles_set := sent_articles_set ∪ genuinely_new_ids
    let updated_sent_articles_list :=
      lastCap (updated_sent_articles_set.sort (· ≤ ·))
    (genuinely_new_ids,
      .stored (fun d => if d = webhook_url then some updated_sent_articles_list else m d))

/-- scheduler.py lines 53-110, `filter_and_update_sent_articles_for_webhook`:
atomically determines which candidate ids are new for this webhook, registers
them (pruned to the `CAP` greatest in sort order) and returns the new ones.
A missing file is created holding the candidates for this webhook
(`except FileNotFoundError` branch); an unparseable file makes the load raise,
the generic `except Exception` handler swallows it and the initial
`new_article_ids = set()` is returned with the file untouched. -/
def filter_and_update_sent_articles_for_webhook (f : DedupFile α)
    (webhook_url : String) (article_ids_to_check : List α) :
    Finset α × DedupFile α :=
  match f with
  | .corrupt => (∅, .corrupt)
  | .missing =>
      let updated_sent_articles_list :=
        lastCap (List.insertionSort (· ≤ ·) article_ids_to_check)
      (article_ids_to_check.toFinset,
        .stored (fun d => if d = webhook_url then some updated_sent_articles_list else none))
  | .emptyFile => reserveParsed .emptyFile (fun _ => none) webhook_url article_ids_to_check
  | .stored m => reserveParsed (.stored m) m webhook_url article_ids_to_check

/-- The spec's name (§4.3) for `filter_and_update_sent_articles_for_webhook`. -/
abbrev reserve_new : DedupFile α → String → List α → Finset α × DedupFile α :=
  filter_and_update_sent_articles_for_webhook

example :
    (reserve_new (DedupFile.missing) "d" [(3 : Nat), 5]).1 = {3, 5} := by decide

example :
    entryOf (reserve_new (DedupFile.missing) "d" [(5 : Nat), 3]).2 "d" = some [3, 5] := by
  decide

example :
    (reserve_new (reserve_new (DedupFile.missing) "d" [(3 : Nat), 5]).2 "d" [3, 5, 7]).1
      = {7} := by decide

/-- The outcome of one `requests.post` call: an HTTP response with a status
code and body text, or a raised `requests.RequestException` (DNS, connect,
timeout). -/
inductive HttpResult where
  | ok (status_code : Nat) (text : String) : HttpResult
  | exn : HttpResult

/-- scheduler.py lines 114-130, `send_to_webhook`: classify the outcome of one
delivery attempt (a single request; there is no retry loop). -/
def send_to_webhook (resp : HttpResult) : String :=
  match resp with
  | .ok status_code _ =>
      if status_code = 200 ∨ status_code = 204 then "Success"
      else if status_code = 429 then "Rate Limited"
      else "Error: " ++ toString status_code
  | .exn => "Failed to Connect"

/-- One raw feed entry as seen by check_single_feed.  Parsed timestamps are
`Option Int` epoch seconds (`time.mktime` of a struct_time is a whole number of
seconds; a missing or unparseable date is `none`, covering both the absent-key
case and the `except` around the conversion). -/
structure Entry where
  id : Option String
  link : Option String
  title : Option String
  summary : Option String
  published_parsed : Option Int
  updated_parsed : Option Int
deriving DecidableEq

/-- `entry.get('published_parsed') or entry.get('updated_parsed')` (line 154).
A present struct_time is a nonempty tuple, hence always truthy, so Python's
`or` is exactly `Option.orElse` here. -/
def effectiveTime (e : Entry) : Option Int :=
  match e.published_parsed with
  | some t => some t
  | none => e.updated_parsed

/-- Line 159: keep an entry iff its effective timestamp parses and is
`>= now - timedelta(hours=24)` (86400 seconds). -/
def isRecent (now : Int) (e : Entry) : Bool :=
  match effectiveTime e with
  | some t => decide (now - 86400 ≤ t)
  | none => false

/-- Lines 151-162: the recency filter over the fetched entries. -/
def recentEntries (entries : List Entry) (now : Int) : List Entry :=
  entries.filter (isRecent now)

/-- The sort key of line 167 / line 205: the effective timestamp.  The
`or (0,)*9` fallback is dead for entries that passed the recency filter (they
all have a parsed timestamp), mirrored by `getD 0`. -/
def sortKey (e : Entry) : Int := (effectiveTime e).getD 0

/-- Line 167: `reverse=True` comparison.  Python's `sort` is stable; the model
uses `insertionSort`, which computes the same list whenever no two entries
share a sort key (no property below involves tied keys). -/
def byDateDesc (a b : Entry) : Prop := sortKey b ≤ sortKey a

/-- Line 205: ascending (oldest-new-first) comparison; same stability remark
as for `byDateDesc`. -/
def byDateAsc (a b : Entry) : Prop := sortKey a ≤ sortKey b

instance : DecidableRel byDateDesc := fun a b => Int.decLe _ _

instance : DecidableRel byDateAsc := fun a b => Int.decLe _ _

instance : IsTotal Entry byDateAsc := ⟨fun a b => le_total _ _⟩

instance : IsTrans Entry byDateAsc := ⟨fun _ _ _ hab hbc => le_trans hab hbc⟩

/-- Python truthiness of an optional string: `None` and `""` are falsy. -/
def truthyStr : Option String → Bool
  | none => false
  | some s => !(s == "")

/-- `entry.get('id') or entry.get('link')` (line 171): the article identity
key, with Python `or` falling through on a falsy (absent or empty) id. -/
def articleKey (e : Entry) : Option String :=
  if truthyStr e.id then e.id else e.link

/-- Python dict assignment `m[k] = e`: replace in place if the key exists
(keeping its original position), else append. -/
def insertOrReplace (m : List (String × Entry)) (k : String) (e : Entry) :
    List (String × Entry) :=
  match m with
  | [] => [(k, e)]
  | (k', e') :: rest =>
      if k' = k then (k, e) :: rest else (k', e') :: insertOrReplace rest k e

/-- Lines 170-173: the dict comprehension building `article_id_map`, skipping
entries whose key is falsy; a later entry with the same key overwrites the
earlier one. -/
def buildArticleIdMap (l : List Entry) : List (String × Entry) :=
  l.foldl (fun m e =>
    match articleKey e with
    | some k => if k = "" then m else insertOrReplace m k e
    | none => m) []

/-- Python dict lookup `article_id_map[id]` (total here; the ids looked up are
always keys of the map, so the `none` case is dead). -/
def lookupEntry (m : List (String × Entry)) (k : String) : Option Entry :=
  (m.find? (fun p => p.1 == k)).map (fun p => p.2)

/-- Line 167: recent articles sorted by effective timestamp descending. -/
def sortedRecentOf (entries : List Entry) (now : Int) : List Entry :=
  List.insertionSort byDateDesc (recentEntries entries now)

/-- Lines 170-173 applied to the sorted recent articles. -/
def articleMapOf (entries : List Entry) (now : Int) : List (String × Entry) :=
  buildArticleIdMap (sortedRecentOf entries now)

/-- Line 174: `all_recent_ids = list(article_id_map.keys())`. -/
def allRecentIdsOf (entries : List Entry) (now : Int) : List String :=
  (articleMapOf entries now).map (fun p => p.1)

/-- A configured destination: `{"url": ..., "label": ...}`. -/
structure Webhook where
  url : Option String
  label : Option String
deriving DecidableEq

/-- The fields of a feed's configuration that check_single_feed reads (id is a
nonempty string for every feed the scheduler or the force-check route passes
in; `url`/`name` only feed the fetch and the embed footer). -/
structure FeedConfig where
  id : String
  url : String
  name : Option String
  webhooks : List Webhook

/-- `webhook.get("url")` filtered by the truthiness guards of lines 186 and
196: the URL actually used, or `none` when the webhook is skipped. -/
def effectiveUrl (w : Webhook) : Option String :=
  match w.url with
  | some u => if u = "" then none else some u
  | none => none

/-- Everything one call of check_single_feed produces or mutates: the returned
status code and last-post status, the dedup file, and (ghost state for the
proofs) the ordered log of webhook dispatch calls made. -/
structure CheckResult where
  status_code : Nat
  last_post_status : Option String
  file : DedupFile String
  dispatches : List (String × Entry)

/-- Lines 184-188: the seeding loop body for one webhook: register all recent
ids for it, discarding the returned set, skipping falsy URLs. -/
def seedWebhook (all_recent_ids : List String) (f : DedupFile String) (w : Webhook) :
    DedupFile String :=
  match effectiveUrl w with
  | none => f
  | some u => (reserve_new f u all_recent_ids).2

/-- Lines 208-224: the `for entry in articles_to_post` loop: build and send one
embed per article, recording the outcome string of each attempt as
`last_post_status`.  `net` is the network oracle giving the HTTP outcome of
each post; the dispatch log records each call. -/
def dispatchLoop (net : String → Entry → HttpResult) (u : String)
    (arts : List Entry) (acc : CheckResult) : CheckResult :=
  arts.foldl (fun st e =>
    ⟨st.status_code, some (send_to_webhook (net u e)), st.file, st.dispatches ++ [(u, e)]⟩) acc

/-- Lines 194-224: the incremental-path loop body for one webhook: reserve the
new ids for this webhook, look the articles up, sort them oldest-first and
dispatch each.  Skips falsy URLs; the reserve's file update happens even when
nothing new is found. -/
def processWebhook (net : String → Entry → HttpResult) (all_recent_ids : List String)
    (amap : List (String × Entry)) (acc : CheckResult) (w : Webhook) : CheckResult :=
  match effectiveUrl w with
  | none => acc
  | some u =>
      let res := reserve_new acc.file u all_recent_ids
      let articles_to_post :=
        (all_recent_ids.filter (fun k => decide (k ∈ res.1))).filterMap (lookupEntry amap)
      if articles_to_post.isEmpty then
        ⟨acc.status_code, acc.last_post_status, res.2, acc.dispatches⟩
      else
        dispatchLoop net u (List.insertionSort byDateAsc articles_to_post)
          ⟨acc.status_code, acc.last_post_status, res.2, acc.dispatches⟩

/-- One feed's `last_post` record in feed_state.json. -/
structure LastPost where
  status : String
  timestamp : Int
deriving DecidableEq

/-- One feed's record in feed_state.json (`status_code`, `last_checked`,
optional `last_post`).  Timestamps are epoch seconds standing for the ISO
strings the source writes. -/
structure FeedRecord where
  status_code : Nat
  last_checked : Int
  last_post : Option LastPost
deriving DecidableEq

/-- The persisted feed_state.json mapping. -/
abbrev FeedStateMap := String → Option FeedRecord

/-- scheduler.py lines 132-226, `check_single_feed`, with the fetch made an
input: `status_code` and `entries` are what `feedparser.parse` produced
(`feed_data.get('status', 500)` and `feed_data.entries`); `now` is the current
time in epoch seconds; `f` is the persisted dedup file; `net` gives the HTTP
outcome of each webhook post.  The embed formatting of lines 209-221 (HTML
strip, 250-char truncation, color, footer) is presentation of the dispatched
entry and is not modelled; the dispatch log records the entry itself. -/
def check_single_feed (cfg : FeedConfig) (feed_state : String → Option FeedRecord)
    (status_code : Nat) (entries : List Entry) (now : Int) (f : DedupFile String)
    (net : String → Entry → HttpResult) : CheckResult :=
  if entries.isEmpty then ⟨status_code, none, f, []⟩
  else if (recentEntries entries now).isEmpty then ⟨status_code, none, f, []⟩
  else
    let article_id_map := articleMapOf entries now
    let all_recent_ids := allRecentIdsOf entries now
    let is_initial_check := (feed_state cfg.id).isNone
    if cfg.webhooks.isEmpty then ⟨status_code, some "No webhooks configured", f, []⟩
    else if is_initial_check then
      ⟨status_code, some "Initial check (seeded)",
        cfg.webhooks.foldl (seedWebhook all_recent_ids) f, []⟩
    else
      cfg.webhooks.foldl (processWebhook net all_recent_ids article_id_map)
        ⟨status_code, none, f, []⟩

/-- scheduler.py lines 273-284 (and identically main_web.py lines 1687-1699 in
`force_check_feed`): create the feed's record if absent, overwrite
`status_code` and `last_checked`, and set `last_post` only when the check
returned a (truthy, hence here non-`none`; the source never produces `""`)
last-post status, otherwise keep the previous one. -/
def updateFeedState (st : FeedStateMap) (feed_id : String) (status_code : Nat)
    (last_post_status : Option String) (now : Int) : FeedStateMap :=
  fun k =>
    if k = feed_id then
      some ⟨status_code, now,
        match last_post_status with
        | some s => some ⟨s, now⟩
        | none => (st feed_id).bind (fun r => r.last_post)⟩
    else st k

/-- scheduler.py lines 268-287: the per-feed tail of one scheduler iteration.
`checkOutcome` is `some (status_code, last_post_status)` when
check_single_feed returned, and `none` when it raised, in which case the
`except` handler leaves the state untouched. -/
def schedulerStep (st : FeedStateMap) (feed_id : String)
    (checkOutcome : Option (Nat × Option String)) (now : Int) : FeedStateMap :=
  match checkOutcome with
  | none => st
  | some (c, lp) => updateFeedState st feed_id c lp now

/-! ### Lemmas about the dedup store -/

theorem lastCap_length_le (l : List α) : (lastCap l).length ≤ CAP := by
  simp only [lastCap, List.length_drop]
  omega

theorem lastCap_of_length_le {l : List α} (h : l.length ≤ CAP) : lastCap l = l := by
  simp only [lastCap]
  rw [Nat.sub_eq_zero_of_le h, List.drop_zero]

theorem toFinset_of_perm [DecidableEq α] {l₁ l₂ : List α} (h : l₁.Perm l₂) :
    l₁.toFinset = l₂.toFinset :=
  List.toFinset.ext_iff.mpr (fun _ => h.mem_iff)

/-- In a `≤`-sorted list, every element outside a `drop`-suffix is at most
every element of the suffix. -/
theorem sorted_drop_le {l : List α} (hs : l.Sorted (· ≤ ·)) {k : Nat} {x y : α}
    (hx : x ∈ l) (hx' : x ∉ l.drop k) (hy : y ∈ l.drop k) : x ≤ y := by
  have hsplit := List.take_append_drop k l
  rw [← hsplit] at hs hx
  rcases List.mem_append.mp hx with hxt | hxd
  · exact (List.pairwise_append.mp hs).2.2 x hxt y hy
  · exact absurd hxd hx'

/-- Frame property of one reserve call: every destination other than the one
passed in keeps exactly its previous entry (in every file state). -/
theorem entryOf_reserve_ne (f : DedupFile α) (d d' : String) (ids : List α)
    (h : d' ≠ d) :
    entryOf (filter_and_update_sent_articles_for_webhook f d ids).2 d' = entryOf f d' := by
  cases f with
  | corrupt => rfl
  | missing => simp [filter_and_update_sent_articles_for_webhook, entryOf, h]
  | emptyFile =>
      simp only [filter_and_update_sent_articles_for_webhook, reserveParsed]
      split
      · rfl
      · simp [entryOf, h]
  | stored m =>
      simp only [filter_and_update_sent_articles_for_webhook, reserveParsed]
      split
      · rfl
      · simp [entryOf, h]

/-- A reserve call on a non-corrupt file leaves a non-corrupt file. -/
theorem reserve_ne_corrupt {f : DedupFile α} (d : String) (ids : List α)
    (hf : f ≠ .corrupt) :
    (filter_and_update_sent_articles_for_webhook f d ids).2 ≠ .corrupt := by
  cases f with
  | corrupt => exact absurd rfl hf
  | missing =>
      intro h
      exact DedupFile.noConfusion h
  | emptyFile =>
      simp only [filter_and_update_sent_articles_for_webhook, reserveParsed]
      split
      · intro h; exact DedupFile.noConfusion h
      · intro h; exact DedupFile.noConfusion h
  | stored m =>
      simp only [filter_and_update_sent_articles_for_webhook, reserveParsed]
      split
      · intro h; exact DedupFile.noConfusion h
      · intro h; exact DedupFile.noConfusion h

/-- On any non-corrupt file, the returned set is exactly the candidates not
yet recorded for this destination. -/
theorem reserve_fst (f : DedupFile α) (d : String) (ids : List α)
    (hf : f ≠ .corrupt) :
    (filter_and_update_sent_articles_for_webhook f d ids).1
      = ids.toFinset \ sentOf f d := by
  cases f with
  | corrupt => exact absurd rfl hf
  | missing => simp [filter_and_update_sent_articles_for_webhook, sentOf, entryOf]
  | emptyFile =>
      simp only [filter_and_update_sent_articles_for_webhook, reserveParsed]
      split
      · next hempty => simp_all [sentOf, entryOf]
      · simp [sentOf, entryOf]
  | stored m =>
      simp only [filter_and_update_sent_articles_for_webhook, reserveParsed]
      split
      · next hempty =>
          simp only [sentOf, entryOf]
          exact hempty.symm
      · simp [sentOf, entryOf]

/-- Helper: the value `sentOf` reads back at the destination just written in
the parsed-dictionary path. -/
theorem sentOf_stored_update (m : String → Option (List α)) (d : String) (L : List α) :
    sentOf (DedupFile.stored (fun d' => if d' = d then some L else m d')) d
      = L.toFinset := by
  simp [sentOf, entryOf]

/-- Helper: the value `sentOf` reads back at the destination just written in
the missing-file path. -/
theorem sentOf_stored_new (d : String) (L : List α) :
    sentOf (DedupFile.stored
      (fun d' => if d' = d then some L else (none : Option (List α)))) d
      = L.toFinset := by
  simp [sentOf, entryOf]

/-- Helper: the no-prune update equation for the parsed-dictionary path of the
reserve call. -/
theorem sentOf_reserveParsed (orig : DedupFile α) (m : String → Option (List α))
    (d : String) (ids : List α)
    (hcard : (((m d).getD []).toFinset ∪ ids.toFinset).card ≤ CAP)
    (hOrig : entryOf orig d = m d) :
    sentOf (reserveParsed orig m d ids).2 d
      = ((m d).getD []).toFinset ∪ ids.toFinset := by
  simp only [reserveParsed]
  split
  · next hempty =>
      have hsub : ids.toFinset ⊆ ((m d).getD []).toFinset :=
        Finset.sdiff_eq_empty_iff_subset.mp hempty
      show ((entryOf orig d).getD []).toFinset = _
      rw [hOrig]
      exact (Finset.union_eq_left.mpr hsub).symm
  · next hne =>
      have hlen : ((((m d).getD []).toFinset
          ∪ (ids.toFinset \ ((m d).getD []).toFinset)).sort (· ≤ ·)).length ≤ CAP := by
        rw [Finset.length_sort]
        calc (((m d).getD []).toFinset ∪ (ids.toFinset \ ((m d).getD []).toFinset)).card
            = (((m d).getD []).toFinset ∪ ids.toFinset).card := by
              rw [Finset.union_sdiff_self_eq_union]
          _ ≤ CAP := hcard
      rw [sentOf_stored_update, lastCap_of_length_le hlen, Finset.sort_toFinset,
        Finset.union_sdiff_self_eq_union]

/-- When the destination's previous set together with the candidates fits in
the cap (so nothing is pruned) and the candidate list is duplicate-free, the
recorded set after a reserve call is exactly the union of the previous set and
the candidates. -/
theorem sentOf_reserve_self (f : DedupFile α) (d : String) (ids : List α)
    (hf : f ≠ .corrupt) (hnd : ids.Nodup)
    (hcard : (sentOf f d ∪ ids.toFinset).card ≤ CAP) :
    sentOf (filter_and_update_sent_articles_for_webhook f d ids).2 d
      = sentOf f d ∪ ids.toFinset := by
  cases f with
  | corrupt => exact absurd rfl hf
  | missing =>
      have hperm := List.perm_insertionSort (· ≤ ·) ids
      have hlen : (List.insertionSort (· ≤ ·) ids).length ≤ CAP := by
        rw [hperm.length_eq]
        calc ids.length = ids.toFinset.card := (List.toFinset_card_of_nodup hnd).symm
          _ ≤ (sentOf (DedupFile.missing) d ∪ ids.toFinset).card :=
              Finset.card_le_card Finset.subset_union_right
          _ ≤ CAP := hcard
      simp only [filter_and_update_sent_articles_for_webhook]
      rw [sentOf_stored_new, lastCap_of_length_le hlen, toFinset_of_perm hperm]
      simp [sentOf, entryOf]
  | emptyFile =>
      exact sentOf_reserveParsed _ _ d ids hcard rfl
  | stored m =>
      exact sentOf_reserveParsed _ _ d ids hcard rfl

theorem lastCap_eq_drop (l : List α) : lastCap l = l.drop (l.length - CAP) := rfl

theorem entryOf_stored_self (m : String → Option (List α)) (d : String) (L : List α) :
    entryOf (DedupFile.stored (fun k => if k = d then some L else m k)) d = some L := by
  simp [entryOf]

theorem entryOf_stored_self_none (d : String) (L : List α) :
    entryOf (DedupFile.stored
      (fun k => if k = d then some L else (none : Option (List α)))) d = some L := by
  simp [entryOf]

/-- Helper: after the parsed-dictionary path, the entry written for the
destination is either capped in length or the unchanged previous entry. -/
theorem entry_reserveParsed_length (orig : DedupFile α) (m : String → Option (List α))
    (d : String) (ids : List α) (lst : List α)
    (hOrig : entryOf orig d = m d)
    (h : entryOf (reserveParsed orig m d ids).2 d = some lst) :
    lst.length ≤ CAP ∨ entryOf orig d = some lst := by
  simp only [reserveParsed] at h
  split at h
  · exact Or.inr h
  · rw [entryOf_stored_self] at h
    injection h with h2
    exact Or.inl (h2 ▸ lastCap_length_le _)

/-- Every entry present after a reserve call is either within the cap or was
already present unchanged before the call. -/
theorem entry_reserve_length (f : DedupFile α) (d d' : String) (ids : List α)
    (lst : List α)
    (h : entryOf (filter_and_update_sent_articles_for_webhook f d ids).2 d' = some lst) :
    lst.length ≤ CAP ∨ entryOf f d' = some lst := by
  by_cases hd : d' = d
  · subst hd
    cases f with
    | corrupt => exact Or.inr h
    | missing =>
        simp only [filter_and_update_sent_articles_for_webhook] at h
        rw [entryOf_stored_self_none] at h
        injection h with h2
        exact Or.inl (h2 ▸ lastCap_length_le _)
    | emptyFile =>
        simp only [filter_and_update_sent_articles_for_webhook] at h
        exact entry_reserveParsed_length _ _ d' ids lst rfl h
    | stored m =>
        simp only [filter_and_update_sent_articles_for_webhook] at h
        exact entry_reserveParsed_length _ _ d' ids lst rfl h
  · rw [entryOf_reserve_ne f d d' ids hd] at h
    exact Or.inr h

/-- Helper: eviction order for the parsed-dictionary path: anything dropped by
the prune is `≤` everything kept. -/
theorem evict_reserveParsed (orig : DedupFile α) (m : String → Option (List α))
    (d : String) (ids : List α) (lst : List α)
    (hOrig : entryOf orig d = m d)
    (h : entryOf (reserveParsed orig m d ids).2 d = some lst)
    (x : α) (hx : x ∈ ((m d).getD []).toFinset ∪ ids.toFinset)
    (hxn : x ∉ lst) (y : α) (hy : y ∈ lst) : x ≤ y := by
  simp only [reserveParsed] at h
  split at h
  · next hempty =>
      rw [hOrig] at h
      have hsub : ids.toFinset ⊆ ((m d).getD []).toFinset :=
        Finset.sdiff_eq_empty_iff_subset.mp hempty
      have hxS : x ∈ ((m d).getD []).toFinset := by
        rcases Finset.mem_union.mp hx with hl | hr
        · exact hl
        · exact hsub hr
      rw [h] at hxS
      exact absurd (List.mem_toFinset.mp hxS) hxn
  · next hne =>
      rw [entryOf_stored_self] at h
      injection h with h2
      subst h2
      have hU : (((m d).getD []).toFinset ∪ (ids.toFinset \ ((m d).getD []).toFinset))
          = ((m d).getD []).toFinset ∪ ids.toFinset :=
        Finset.union_sdiff_self_eq_union
      have hxmem : x ∈ (Finset.sort (· ≤ ·) (((m d).getD []).toFinset
          ∪ (ids.toFinset \ ((m d).getD []).toFinset))) := by
        rw [Finset.mem_sort]
        rw [hU]
        exact hx
      have hsorted : (Finset.sort (· ≤ ·) (((m d).getD []).toFinset
          ∪ (ids.toFinset \ ((m d).getD []).toFinset))).Sorted (· ≤ ·) :=
        Finset.sort_sorted _ _
      rw [lastCap_eq_drop] at hxn hy
      exact sorted_drop_le hsorted hxmem hxn hy

/-- Eviction order of one reserve call: an id present among the previous or
candidate ids but absent from the stored entry is `≤` (in id sort order) every
id that was kept. -/
theorem reserve_evicts_le (f : DedupFile α) (d : String) (ids : List α) (lst : List α)
    (h : entryOf (filter_and_update_sent_articles_for_webhook f d ids).2 d = some lst)
    (x : α) (hx : x ∈ sentOf f d ∪ ids.toFinset)
    (hxn : x ∉ lst) (y : α) (hy : y ∈ lst) : x ≤ y := by
  cases f with
  | corrupt => exact Option.noConfusion h
  | missing =>
      simp only [filter_and_update_sent_articles_for_webhook] at h
      rw [entryOf_stored_self_none] at h
      injection h with h2
      subst h2
      have hxl : x ∈ List.insertionSort (· ≤ ·) ids := by
        have hx' : x ∈ ids.toFinset := by
          have : sentOf (DedupFile.missing (α := α)) d = ∅ := rfl
          rw [this] at hx
          simpa using hx
        exact (List.perm_insertionSort (· ≤ ·) ids).mem_iff.mpr (List.mem_toFinset.mp hx')
      have hsorted : (List.insertionSort (· ≤ ·) ids).Sorted (· ≤ ·) :=
        List.sorted_insertionSort (· ≤ ·) ids
      rw [lastCap_eq_drop] at hxn hy
      exact sorted_drop_le hsorted hxl hxn hy
  | emptyFile =>
      simp only [filter_and_update_sent_articles_for_webhook] at h
      exact evict_reserveParsed _ _ d ids lst rfl h x hx hxn y hy
  | stored m =>
      simp only [filter_and_update_sent_articles_for_webhook] at h
      exact evict_reserveParsed _ _ d ids lst rfl h x hx hxn y hy

/-- Helper: the entry written for the destination by a reserve call on a
parsed dictionary when something new was found. -/
theorem entry_reserve_stored_write (m : String → Option (List α)) (d : String)
    (ids : List α)
    (hne : ids.toFinset \ ((m d).getD []).toFinset ≠ ∅) :
    entryOf (filter_and_update_sent_articles_for_webhook (DedupFile.stored m) d ids).2 d
      = some (lastCap ((((m d).getD []).toFinset
          ∪ (ids.toFinset \ ((m d).getD []).toFinset)).sort (· ≤ ·))) := by
  simp only [filter_and_update_sent_articles_for_webhook, reserveParsed]
  rw [if_neg hne]
  exact entryOf_stored_self m d _

/-! ### Concrete id families exceeding the 10000-entry cap

`cexIds` = the ids 1..10000, `List.range 10001` = the ids 0..10000.  In the
program these are 10001 distinct id strings whose lexicographic order matches
the numeric order (for example zero-padded decimal strings). -/

theorem range_toFinset (n : Nat) : (List.range n).toFinset = Finset.range n := by
  ext x
  simp [List.mem_range]

theorem insertionSort_range (n : Nat) :
    List.insertionSort (· ≤ ·) (List.range n) = List.range n :=
  List.Sorted.insertionSort_eq (List.pairwise_le_range n)

/-- The ids 1..10000: exactly at the cap. -/
def cexIds : List Nat := (List.range 10000).map (fun n => n + 1)

/-- The dedup dictionary holding 1..10000 for destination "d". -/
def cexM : String → Option (List Nat) := fun k => if k = "d" then some cexIds else none

theorem cexIds_sorted : cexIds.Sorted (· ≤ ·) := by
  exact (List.pairwise_le_range 10000).map _ (fun a b hab => Nat.add_le_add_right hab 1)

theorem insertionSort_cexIds : List.insertionSort (· ≤ ·) cexIds = cexIds :=
  List.Sorted.insertionSort_eq cexIds_sorted

theorem cexIds_length : cexIds.length = 10000 := by simp [cexIds]

theorem lastCap_cexIds : lastCap cexIds = cexIds :=
  lastCap_of_length_le (by rw [cexIds_length]; decide)

theorem drop_one_range : (List.range 10001).drop 1 = cexIds := by
  rw [show (10001 : Nat) = 10000 + 1 from rfl, List.range_succ_eq_map]
  simp [cexIds, Nat.succ_eq_add_one]

theorem lastCap_range_big : lastCap (List.range 10001) = cexIds := by
  rw [lastCap_eq_drop, List.length_range, show (10001 : Nat) - CAP = 1 from rfl,
    drop_one_range]

theorem zero_notin_cexIds : (0 : Nat) ∉ cexIds := by simp [cexIds]

theorem zero_notin_cexIds_toFinset : (0 : Nat) ∉ cexIds.toFinset := by
  rw [List.mem_toFinset]
  exact zero_notin_cexIds

theorem top_mem_cexIds : (10000 : Nat) ∈ cexIds := by
  simp only [cexIds, List.mem_map]
  exact ⟨9999, by simp, by norm_num⟩

theorem one_mem_cexIds : (1 : Nat) ∈ cexIds := by
  simp only [cexIds, List.mem_map]
  exact ⟨0, by simp, by norm_num⟩

theorem cexM_at_d : (cexM "d").getD [] = cexIds := by simp [cexM]

theorem sdiff_zero_cexIds : ([0] : List Nat).toFinset \ cexIds.toFinset = {0} := by
  ext x
  simp only [Finset.mem_sdiff, List.toFinset_cons, List.toFinset_nil,
    insert_emptyc_eq, Finset.mem_singleton]
  constructor
  · rintro ⟨hx, _⟩
    exact hx
  · rintro rfl
    exact ⟨rfl, zero_notin_cexIds_toFinset⟩

theorem union_cexIds_zero : cexIds.toFinset ∪ ({0} : Finset Nat) = Finset.range 10001 := by
  ext x
  simp only [Finset.mem_union, Finset.mem_singleton, Finset.mem_range,
    List.mem_toFinset, cexIds, List.mem_map, List.mem_range]
  constructor
  · rintro (⟨a, ha, rfl⟩ | rfl) <;> omega
  · intro hx
    rcases Nat.eq_zero_or_pos x with rfl | hpos
    · exact Or.inr rfl
    · exact Or.inl ⟨x - 1, by omega, by omega⟩

/-- First call: register 1..10000 for "d" into a missing store. -/
def cexCall1 : Finset Nat × DedupFile Nat :=
  filter_and_update_sent_articles_for_webhook DedupFile.missing "d" cexIds

/-- Second call: register the single id 0 — the most recent registration. -/
def cexCall2 : Finset Nat × DedupFile Nat :=
  filter_and_update_sent_articles_for_webhook cexCall1.2 "d" [0]

theorem cexFile1 : cexCall1.2 = DedupFile.stored cexM := by
  simp only [cexCall1, filter_and_update_sent_articles_for_webhook,
    insertionSort_cexIds, lastCap_cexIds]
  rfl

theorem sent_stored_cexM : sentOf (DedupFile.stored cexM) "d" = cexIds.toFinset := by
  simp [sentOf, entryOf, cexM]

theorem cexFile1_ne_corrupt : cexCall1.2 ≠ DedupFile.corrupt := by
  rw [cexFile1]
  exact fun h => DedupFile.noConfusion h

theorem cexCall2_fst : cexCall2.1 = {0} := by
  have h := reserve_fst cexCall1.2 "d" [0] cexFile1_ne_corrupt
  rw [cexFile1, sent_stored_cexM] at h
  rw [show cexCall2.1 = (filter_and_update_sent_articles_for_webhook cexCall1.2 "d"
    [0]).1 from rfl, cexFile1] at *
  rw [h, sdiff_zero_cexIds]

theorem cexCall2_entry : entryOf cexCall2.2 "d" = some cexIds := by
  have hne : ([0] : List Nat).toFinset \ ((cexM "d").getD []).toFinset ≠ ∅ := by
    rw [cexM_at_d, sdiff_zero_cexIds]
    exact Finset.singleton_ne_empty 0
  rw [show cexCall2.2 = (filter_and_update_sent_articles_for_webhook cexCall1.2 "d"
    [0]).2 from rfl, cexFile1, entry_reserve_stored_write cexM "d" [0] hne,
    cexM_at_d, sdiff_zero_cexIds, union_cexIds_zero, Finset.sort_range,
    lastCap_range_big]

/-- All 10001 ids 0..10000 passed in one call. -/
def cexIdsB : List Nat := List.range 10001

/-- One call registering 0..10000 into a missing store. -/
def cexCallB1 : Finset Nat × DedupFile Nat :=
  filter_and_update_sent_articles_for_webhook DedupFile.missing "d" cexIdsB

/-- The identical call repeated on the resulting store. -/
def cexCallB2 : Finset Nat × DedupFile Nat :=
  filter_and_update_sent_articles_for_webhook cexCallB1.2 "d" cexIdsB

theorem cexFileB1 : cexCallB1.2 = DedupFile.stored cexM := by
  simp only [cexCallB1, cexIdsB, filter_and_update_sent_articles_for_webhook,
    insertionSort_range, lastCap_range_big]
  rfl

theorem cexFileB1_ne_corrupt : cexCallB1.2 ≠ DedupFile.corrupt := by
  rw [cexFileB1]
  exact fun h => DedupFile.noConfusion h

theorem cexCallB1_fst : cexCallB1.1 = cexIdsB.toFinset := rfl

theorem cexCallB2_fst : cexCallB2.1 = cexIdsB.toFinset \ cexIds.toFinset := by
  have h := reserve_fst cexCallB1.2 "d" cexIdsB cexFileB1_ne_corrupt
  rw [cexFileB1, sent_stored_cexM] at h
  rw [show cexCallB2.1 = (filter_and_update_sent_articles_for_webhook cexCallB1.2 "d"
    cexIdsB).1 from rfl, cexFileB1]
  exact h

theorem zero_mem_cexCallB2_fst : (0 : Nat) ∈ cexCallB2.1 := by
  rw [cexCallB2_fst, Finset.mem_sdiff]
  refine ⟨?_, zero_notin_cexIds_toFinset⟩
  rw [cexIdsB, range_toFinset, Finset.mem_range]
  norm_num

theorem cexCall2_def :
    cexCall2 = filter_and_update_sent_articles_for_webhook cexCall1.2 "d" [0] := rfl

theorem cexCallB2_def :
    cexCallB2 = filter_and_update_sent_articles_for_webhook cexCallB1.2 "d" cexIdsB := rfl

attribute [irreducible] cexIds cexIdsB cexM cexCall1 cexCall2 cexCallB1 cexCallB2

/-! ### Lemmas about one feed check -/

theorem dispatchLoop_file (net : String → Entry → HttpResult) (u : String) :
    ∀ (arts : List Entry) (acc : CheckResult),
      (dispatchLoop net u arts acc).file = acc.file := by
  intro arts
  induction arts with
  | nil => intro acc; rfl
  | cons e rest ih =>
      intro acc
      simp only [dispatchLoop, List.foldl_cons] at *
      exact ih _

theorem dispatchLoop_status (net : String → Entry → HttpResult) (u : String) :
    ∀ (arts : List Entry) (acc : CheckResult),
      (dispatchLoop net u arts acc).status_code = acc.status_code := by
  intro arts
  induction arts with
  | nil => intro acc; rfl
  | cons e rest ih =>
      intro acc
      simp only [dispatchLoop, List.foldl_cons] at *
      exact ih _

theorem dispatchLoop_dispatches (net : String → Entry → HttpResult) (u : String) :
    ∀ (arts : List Entry) (acc : CheckResult),
      (dispatchLoop net u arts acc).dispatches
        = acc.dispatches ++ arts.map (fun e => (u, e)) := by
  intro arts
  induction arts with
  | nil => intro acc; simp [dispatchLoop]
  | cons e rest ih =>
      intro acc
      simp only [dispatchLoop, List.foldl_cons] at *
      rw [ih]
      simp

/-- The dispatch sequence one webhook iteration appends: the new articles for
it, oldest first, each tagged with the webhook URL. -/
def webhookSeg (all_recent_ids : List String) (amap : List (String × Entry))
    (f : DedupFile String) (w : Webhook) : List (String × Entry) :=
  match effectiveUrl w with
  | none => []
  | some u =>
      let res := reserve_new f u all_recent_ids
      let arts :=
        (all_recent_ids.filter (fun k => decide (k ∈ res.1))).filterMap (lookupEntry amap)
      (List.insertionSort byDateAsc arts).map (fun e => (u, e))

theorem processWebhook_file (net : String → Entry → HttpResult)
    (all_recent_ids : List String) (amap : List (String × Entry))
    (acc : CheckResult) (w : Webhook) :
    (processWebhook net all_recent_ids amap acc w).file
      = seedWebhook all_recent_ids acc.file w := by
  simp only [processWebhook, seedWebhook]
  cases effectiveUrl w with
  | none => rfl
  | some u =>
      simp only
      split
      · rfl
      · rw [dispatchLoop_file]

theorem processWebhook_status (net : String → Entry → HttpResult)
    (all_recent_ids : List String) (amap : List (String × Entry))
    (acc : CheckResult) (w : Webhook) :
    (processWebhook net all_recent_ids amap acc w).status_code = acc.status_code := by
  simp only [processWebhook]
  cases effectiveUrl w with
  | none => rfl
  | some u =>
      simp only
      split
      · rfl
      · rw [dispatchLoop_status]

theorem processWebhook_dispatches (net : String → Entry → HttpResult)
    (all_recent_ids : List String) (amap : List (String × Entry))
    (acc : CheckResult) (w : Webhook) :
    (processWebhook net all_recent_ids amap acc w).dispatches
      = acc.dispatches ++ webhookSeg all_recent_ids amap acc.file w := by
  simp only [processWebhook, webhookSeg]
  cases effectiveUrl w with
  | none => simp
  | some u =>
      simp only
      split
      · next hempty =>
          rw [List.isEmpty_iff] at hempty
          rw [hempty]
          simp
      · rw [dispatchLoop_dispatches]

/-- The incremental loop updates the dedup file exactly as the seeding loop
does: the dispatch phase never touches it. -/
theorem foldl_processWebhook_file (net : String → Entry → HttpResult)
    (all_recent_ids : List String) (amap : List (String × Entry)) :
    ∀ (ws : List Webhook) (acc : CheckResult),
      (ws.foldl (processWebhook net all_recent_ids amap) acc).file
        = ws.foldl (seedWebhook all_recent_ids) acc.file := by
  intro ws
  induction ws with
  | nil => intro acc; rfl
  | cons w rest ih =>
      intro acc
      simp only [List.foldl_cons]
      rw [ih, processWebhook_file]

/-- The incremental loop's status result is the status it started with. -/
theorem foldl_processWebhook_status (net : String → Entry → HttpResult)
    (all_recent_ids : List String) (amap : List (String × Entry)) :
    ∀ (ws : List Webhook) (acc : CheckResult),
      (ws.foldl (processWebhook net all_recent_ids amap) acc).status_code
        = acc.status_code := by
  intro ws
  induction ws with
  | nil => intro acc; rfl
  | cons w rest ih =>
      intro acc
      simp only [List.foldl_cons]
      rw [ih, processWebhook_status]

/-- Neither the dedup file nor the dispatch sequence of the incremental loop
depends on the network outcomes. -/
theorem foldl_processWebhook_net (net1 net2 : String → Entry → HttpResult)
    (all_recent_ids : List String) (amap : List (String × Entry)) :
    ∀ (ws : List Webhook) (acc1 acc2 : CheckResult),
      acc1.file = acc2.file → acc1.dispatches = acc2.dispatches →
      (ws.foldl (processWebhook net1 all_recent_ids amap) acc1).file
          = (ws.foldl (processWebhook net2 all_recent_ids amap) acc2).file
        ∧ (ws.foldl (processWebhook net1 all_recent_ids amap) acc1).dispatches
          = (ws.foldl (processWebhook net2 all_recent_ids amap) acc2).dispatches := by
  intro ws
  induction ws with
  | nil => intro acc1 acc2 hf hd; exact ⟨hf, hd⟩
  | cons w rest ih =>
      intro acc1 acc2 hf hd
      simp only [List.foldl_cons]
      refine ih _ _ ?_ ?_
      · rw [processWebhook_file, processWebhook_file, hf]
      · rw [processWebhook_dispatches, processWebhook_dispatches, hf, hd]

theorem webhookSeg_fst (all_recent_ids : List String) (amap : List (String × Entry))
    (f : DedupFile String) (w : Webhook) (u : String)
    (hw : effectiveUrl w = some u) :
    ∀ p ∈ webhookSeg all_recent_ids amap f w, p.1 = u := by
  intro p hp
  simp only [webhookSeg, hw] at hp
  rcases List.mem_map.mp hp with ⟨e, _, rfl⟩
  rfl

theorem webhookSeg_filter_ne (all_recent_ids : List String)
    (amap : List (String × Entry)) (f : DedupFile String) (w : Webhook) (u : String)
    (hw : effectiveUrl w ≠ some u) :
    (webhookSeg all_recent_ids amap f w).filter (fun p => p.1 == u) = [] := by
  rw [List.filter_eq_nil_iff]
  intro p hp
  cases hu : effectiveUrl w with
  | none => simp [webhookSeg, hu] at hp
  | some u' =>
      have : p.1 = u' := webhookSeg_fst all_recent_ids amap f w u' hu p hp
      have hne : u' ≠ u := fun h => hw (h ▸ hu)
      simp [this, hne]

theorem webhookSeg_filter_self (all_recent_ids : List String)
    (amap : List (String × Entry)) (f : DedupFile String) (w : Webhook) (u : String)
    (hw : effectiveUrl w = some u) :
    (webhookSeg all_recent_ids amap f w).filter (fun p => p.1 == u)
      = webhookSeg all_recent_ids amap f w := by
  rw [List.filter_eq_self]
  intro p hp
  have := webhookSeg_fst all_recent_ids amap f w u hw p hp
  simp [this]

/-- The keys of one webhook's dispatch segment are ascending. -/
theorem webhookSeg_sorted (all_recent_ids : List String)
    (amap : List (String × Entry)) (f : DedupFile String) (w : Webhook) :
    ((webhookSeg all_recent_ids amap f w).map (fun p => sortKey p.2)).Sorted (· ≤ ·) := by
  cases hu : effectiveUrl w with
  | none => simp [webhookSeg, hu, List.sorted_nil]
  | some u =>
      simp only [webhookSeg, hu, List.map_map]
      have hsorted := List.sorted_insertionSort byDateAsc
        ((all_recent_ids.filter
          (fun k => decide (k ∈ (reserve_new f u all_recent_ids).1))).filterMap
            (lookupEntry amap))
      refine List.pairwise_map.mpr (hsorted.imp ?_)
      intro a b hab
      exact hab

/-- If no remaining webhook uses URL `u`, the incremental loop adds nothing to
`u`'s part of the dispatch sequence. -/
theorem foldl_processWebhook_filter_no_u (net : String → Entry → HttpResult)
    (all_recent_ids : List String) (amap : List (String × Entry)) (u : String) :
    ∀ (ws : List Webhook) (acc : CheckResult),
      (∀ w ∈ ws, effectiveUrl w ≠ some u) →
      ((ws.foldl (processWebhook net all_recent_ids amap) acc).dispatches).filter
          (fun p => p.1 == u)
        = acc.dispatches.filter (fun p => p.1 == u) := by
  intro ws
  induction ws with
  | nil => intro acc _; rfl
  | cons w rest ih =>
      intro acc hno
      simp only [List.foldl_cons]
      rw [ih _ (fun w' hw' => hno w' (List.mem_cons_of_mem w hw')),
        processWebhook_dispatches, List.filter_append,
        webhookSeg_filter_ne _ _ _ _ _ (hno w (List.mem_cons_self w rest)),
        List.append_nil]

/-- As long as each webhook URL occurs at most once in the configuration, the
dispatch sequence restricted to any URL is ascending in effective timestamp. -/
theorem foldl_processWebhook_filter_sorted (net : String → Entry → HttpResult)
    (all_recent_ids : List String) (amap : List (String × Entry)) (u : String) :
    ∀ (ws : List Webhook) (acc : CheckResult),
      (ws.filterMap effectiveUrl).Nodup →
      acc.dispatches.filter (fun p => p.1 == u) = [] →
      List.Sorted (· ≤ ·)
        ((((ws.foldl (processWebhook net all_recent_ids amap) acc).dispatches).filter
          (fun p => p.1 == u)).map (fun p => sortKey p.2)) := by
  intro ws
  induction ws with
  | nil =>
      intro acc _ hacc
      simp only [List.foldl_nil, hacc, List.map_nil]
      exact List.sorted_nil
  | cons w rest ih =>
      intro acc hnd hacc
      simp only [List.foldl_cons]
      cases hu : effectiveUrl w with
      | none =>
          refine ih _ ?_ ?_
          · simpa [List.filterMap_cons, hu] using hnd
          · rw [processWebhook_dispatches, List.filter_append,
              webhookSeg_filter_ne _ _ _ _ _ (by simp [hu]), List.append_nil, hacc]
      | some u' =>
          have hnd' : u' ∉ rest.filterMap effectiveUrl
              ∧ (rest.filterMap effectiveUrl).Nodup := by
            have : (u' :: rest.filterMap effectiveUrl).Nodup := by
              simpa [List.filterMap_cons, hu] using hnd
            exact ⟨(List.nodup_cons.mp this).1, (List.nodup_cons.mp this).2⟩
          by_cases huu : u' = u
          · subst huu
            have hrest : ∀ w' ∈ rest, effectiveUrl w' ≠ some u' := by
              intro w' hw' hcon
              exact hnd'.1 (List.mem_filterMap.mpr ⟨w', hw', hcon⟩)
            rw [foldl_processWebhook_filter_no_u net all_recent_ids amap u' rest _ hrest,
              processWebhook_dispatches, List.filter_append, hacc, List.nil_append,
              webhookSeg_filter_self _ _ _ _ _ hu]
            exact webhookSeg_sorted all_recent_ids amap acc.file w
          · refine ih _ hnd'.2 ?_
            rw [processWebhook_dispatches, List.filter_append, hacc, List.nil_append,
              webhookSeg_filter_ne _ _ _ _ _ (by simp [hu, huu])]

/-! ### Lemmas about the seeding loop -/

theorem seedWebhook_ne_corrupt (ids : List String) (f : DedupFile String) (w : Webhook)
    (hf : f ≠ DedupFile.corrupt) : seedWebhook ids f w ≠ DedupFile.corrupt := by
  simp only [seedWebhook]
  cases effectiveUrl w with
  | none => exact hf
  | some u => exact reserve_ne_corrupt u ids hf

theorem sentOf_seedWebhook_ne (ids : List String) (f : DedupFile String) (w : Webhook)
    (u' : String) (h : effectiveUrl w ≠ some u') :
    sentOf (seedWebhook ids f w) u' = sentOf f u' := by
  simp only [seedWebhook]
  cases hu : effectiveUrl w with
  | none => rfl
  | some u =>
      have hne : u' ≠ u := fun hc => h (hc ▸ hu)
      simp only [sentOf]
      rw [entryOf_reserve_ne f u u' ids hne]

/-- Running the seeding loop over any webhook list: the file stays non-corrupt,
every destination's set stays within the no-prune bound, containment of the
candidate set is preserved, and every webhook in the list ends up with all
candidate ids registered. -/
theorem seedFold_spec (ids : List String) (hnd : ids.Nodup) :
    ∀ (ws : List Webhook) (f : DedupFile String), f ≠ DedupFile.corrupt →
      (∀ u', (sentOf f u' ∪ ids.toFinset).card ≤ CAP) →
      (ws.foldl (seedWebhook ids) f ≠ DedupFile.corrupt
        ∧ (∀ u', (sentOf (ws.foldl (seedWebhook ids) f) u' ∪ ids.toFinset).card ≤ CAP)
        ∧ (∀ u', ids.toFinset ⊆ sentOf f u'
            → ids.toFinset ⊆ sentOf (ws.foldl (seedWebhook ids) f) u')
        ∧ ∀ w ∈ ws, ∀ u, effectiveUrl w = some u
            → ids.toFinset ⊆ sentOf (ws.foldl (seedWebhook ids) f) u) := by
  intro ws
  induction ws with
  | nil =>
      intro f hf hcard
      exact ⟨hf, hcard, fun _ h => h, fun w hw => absurd hw (List.not_mem_nil w)⟩
  | cons w rest ih =>
      intro f hf hcard
      simp only [List.foldl_cons]
      have hf' : seedWebhook ids f w ≠ DedupFile.corrupt :=
        seedWebhook_ne_corrupt ids f w hf
      have hsent' : ∀ u', sentOf (seedWebhook ids f w) u' = sentOf f u'
          ∨ (effectiveUrl w = some u'
              ∧ sentOf (seedWebhook ids f w) u' = sentOf f u' ∪ ids.toFinset) := by
        intro u'
        by_cases hw : effectiveUrl w = some u'
        · refine Or.inr ⟨hw, ?_⟩
          simp only [seedWebhook, hw]
          exact sentOf_reserve_self f u' ids hf hnd (hcard u')
        · exact Or.inl (sentOf_seedWebhook_ne ids f w u' hw)
      have hcard' : ∀ u', (sentOf (seedWebhook ids f w) u' ∪ ids.toFinset).card ≤ CAP := by
        intro u'
        rcases hsent' u' with h | ⟨_, h⟩
        · rw [h]; exact hcard u'
        · rw [h, Finset.union_assoc, Finset.union_self]; exact hcard u'
      have hmono : ∀ u', ids.toFinset ⊆ sentOf f u'
          → ids.toFinset ⊆ sentOf (seedWebhook ids f w) u' := by
        intro u' hsub
        rcases hsent' u' with h | ⟨_, h⟩
        · rw [h]; exact hsub
        · rw [h]; exact hsub.trans Finset.subset_union_left
      obtain ⟨ihc, ihcard, ihmono, ihall⟩ := ih (seedWebhook ids f w) hf' hcard'
      refine ⟨ihc, ihcard, fun u' hsub => ihmono u' (hmono u' hsub), ?_⟩
      intro w' hw' u hu
      rcases List.mem_cons.mp hw' with rfl | hmem
      · refine ihmono u ?_
        have h : sentOf (seedWebhook ids f w') u = sentOf f u ∪ ids.toFinset := by
          simp only [seedWebhook, hu]
          exact sentOf_reserve_self f u ids hf hnd (hcard u)
        rw [h]
        exact Finset.subset_union_right
      · exact ihall w' hmem u hu

/-! ### The article id map has distinct keys -/

theorem mem_keys_insertOrReplace (k a : String) (e : Entry) :
    ∀ (m : List (String × Entry)),
      (a ∈ (insertOrReplace m k e).map (fun p => p.1)
        ↔ a ∈ m.map (fun p => p.1) ∨ a = k) := by
  intro m
  induction m with
  | nil => simp [insertOrReplace]
  | cons p rest ih =>
      obtain ⟨k', e'⟩ := p
      simp only [insertOrReplace]
      split
      · next heq =>
          subst heq
          simp only [List.map_cons, List.mem_cons]
          tauto
      · next hne =>
          simp only [List.map_cons, List.mem_cons, ih]
          tauto

theorem keys_nodup_insertOrReplace (k : String) (e : Entry) :
    ∀ (m : List (String × Entry)), (m.map (fun p => p.1)).Nodup →
      ((insertOrReplace m k e).map (fun p => p.1)).Nodup := by
  intro m
  induction m with
  | nil => intro _; simp [insertOrReplace]
  | cons p rest ih =>
      obtain ⟨k', e'⟩ := p
      intro h
      simp only [List.map_cons, List.nodup_cons] at h
      simp only [insertOrReplace]
      split
      · next heq =>
          subst heq
          simp only [List.map_cons, List.nodup_cons]
          exact ⟨h.1, h.2⟩
      · next hne =>
          simp only [List.map_cons, List.nodup_cons]
          refine ⟨?_, ih h.2⟩
          rw [mem_keys_insertOrReplace]
          rintro (hk | rfl)
          · exact h.1 hk
          · exact hne rfl

theorem buildArticleIdMap_keys_nodup (l : List Entry) :
    ((buildArticleIdMap l).map (fun p => p.1)).Nodup := by
  suffices h : ∀ (acc : List (String × Entry)), (acc.map (fun p => p.1)).Nodup →
      (((l.foldl (fun m e =>
        match articleKey e with
        | some k => if k = "" then m else insertOrReplace m k e
        | none => m) acc)).map (fun p => p.1)).Nodup by
    exact h [] (by simp)
  induction l with
  | nil => intro acc hacc; exact hacc
  | cons e rest ih =>
      intro acc hacc
      simp only [List.foldl_cons]
      refine ih _ ?_
      cases harticle : articleKey e with
      | none => exact hacc
      | some k =>
          simp only
          split
          · exact hacc
          · exact keys_nodup_insertOrReplace k e acc hacc

theorem allRecentIdsOf_nodup (entries : List Entry) (now : Int) :
    (allRecentIdsOf entries now).Nodup := by
  simp only [allRecentIdsOf, articleMapOf]
  exact buildArticleIdMap_keys_nodup _

/-! ### Branch equations of check_single_feed -/

theorem check_single_feed_no_entries (cfg : FeedConfig)
    (feed_state : String → Option FeedRecord) (status_code : Nat) (now : Int)
    (f : DedupFile String) (net : String → Entry → HttpResult) :
    check_single_feed cfg feed_state status_code [] now f net
      = ⟨status_code, none, f, []⟩ := rfl

theorem check_single_feed_initial (cfg : FeedConfig)
    (feed_state : String → Option FeedRecord) (status_code : Nat)
    (entries : List Entry) (now : Int) (f : DedupFile String)
    (net : String → Entry → HttpResult)
    (hent : entries ≠ []) (hrec : recentEntries entries now ≠ [])
    (hwh : cfg.webhooks ≠ []) (hunseen : feed_state cfg.id = none) :
    check_single_feed cfg feed_state status_code entries now f net
      = ⟨status_code, some "Initial check (seeded)",
          cfg.webhooks.foldl (seedWebhook (allRecentIdsOf entries now)) f, []⟩ := by
  simp only [check_single_feed]
  rw [if_neg (fun h => hent (List.isEmpty_iff.mp h)),
    if_neg (fun h => hrec (List.isEmpty_iff.mp h)),
    if_neg (fun h => hwh (List.isEmpty_iff.mp h)),
    if_pos (show (feed_state cfg.id).isNone = true by rw [hunseen]; rfl)]

theorem check_single_feed_no_recent (cfg : FeedConfig)
    (feed_state : String → Option FeedRecord) (status_code : Nat)
    (entries : List Entry) (now : Int) (f : DedupFile String)
    (net : String → Entry → HttpResult)
    (hrec : recentEntries entries now = []) :
    check_single_feed cfg feed_state status_code entries now f net
      = ⟨status_code, none, f, []⟩ := by
  simp only [check_single_feed]
  by_cases hent : entries.isEmpty = true
  · rw [if_pos hent]
  · rw [if_neg hent, if_pos (List.isEmpty_iff.mpr hrec)]

theorem check_single_feed_no_webhooks (cfg : FeedConfig)
    (feed_state : String → Option FeedRecord) (status_code : Nat)
    (entries : List Entry) (now : Int) (f : DedupFile String)
    (net : String → Entry → HttpResult)
    (hent : entries ≠ []) (hrec : recentEntries entries now ≠ [])
    (hwh : cfg.webhooks = []) :
    check_single_feed cfg feed_state status_code entries now f net
      = ⟨status_code, some "No webhooks configured", f, []⟩ := by
  simp only [check_single_feed]
  rw [if_neg (fun h => hent (List.isEmpty_iff.mp h)),
    if_neg (fun h => hrec (List.isEmpty_iff.mp h)),
    if_pos (List.isEmpty_iff.mpr hwh)]

theorem check_single_feed_seeded (cfg : FeedConfig)
    (feed_state : String → Option FeedRecord) (status_code : Nat)
    (entries : List Entry) (now : Int) (f : DedupFile String)
    (net : String → Entry → HttpResult)
    (hent : entries ≠ []) (hrec : recentEntries entries now ≠ [])
    (hwh : cfg.webhooks ≠ []) (hseen : feed_state cfg.id ≠ none) :
    check_single_feed cfg feed_state status_code entries now f net
      = cfg.webhooks.foldl
          (processWebhook net (allRecentIdsOf entries now) (articleMapOf entries now))
          ⟨status_code, none, f, []⟩ := by
  simp only [check_single_feed]
  rw [if_neg (fun h => hent (List.isEmpty_iff.mp h)),
    if_neg (fun h => hrec (List.isEmpty_iff.mp h)),
    if_neg (fun h => hwh (List.isEmpty_iff.mp h)),
    if_neg (show ¬(feed_state cfg.id).isNone = true from
      fun h => hseen (Option.isNone_iff_eq_none.mp h))]

/-! ### Feed state update lemmas -/

theorem updateFeedState_self (st : FeedStateMap) (feed_id : String) (status_code : Nat)
    (last_post_status : Option String) (now : Int) :
    ((updateFeedState st feed_id status_code last_post_status now) feed_id).isSome
      = true := by
  simp [updateFeedState]

theorem updateFeedState_mono (st : FeedStateMap) (feed_id fid' : String)
    (status_code : Nat) (last_post_status : Option String) (now : Int)
    (h : (st fid').isSome = true) :
    ((updateFeedState st feed_id status_code last_post_status now) fid').isSome
      = true := by
  simp only [updateFeedState]
  by_cases hf : fid' = feed_id
  · rw [if_pos hf]; rfl
  · rw [if_neg hf]; exact h

/-! ### The claims -/

/-- C1 counterexample: the claim quantifies over every finite candidate set;
with the 10001 distinct ids 0..10000 and a store with no entry for "d", the
first call returns the full set but the prune keeps only 1..10000, so the
immediately repeated identical call returns a non-empty set (it contains id 0)
instead of the claimed empty set. -/
theorem C1_counterexample :
    cexCallB1.1 = cexIdsB.toFinset ∧ cexCallB2.1 ≠ ∅ :=
  ⟨cexCallB1_fst, Finset.ne_empty_of_mem zero_mem_cexCallB2_fst⟩

/-- C1 (amended): for a duplicate-free candidate list of at most 10000 ids and
a non-corrupt store with no entry for the destination, the first reserve call
returns the full candidate set and the immediately repeated identical call
returns the empty set. -/
theorem C1_idempotent_dedup (α : Type) [LinearOrder α] [DecidableEq α]
    (f : DedupFile α) (d : String) (ids : List α)
    (hnoentry : entryOf f d = none) (hf : f ≠ DedupFile.corrupt)
    (hnd : ids.Nodup) (hlen : ids.length ≤ CAP) :
    (filter_and_update_sent_articles_for_webhook f d ids).1 = ids.toFinset
      ∧ (filter_and_update_sent_articles_for_webhook
          (filter_and_update_sent_articles_for_webhook f d ids).2 d ids).1 = ∅ := by
  have hsent : sentOf f d = ∅ := by simp [sentOf, hnoentry]
  have hfst := reserve_fst f d ids hf
  rw [hsent, Finset.sdiff_empty] at hfst
  have hcard : (sentOf f d ∪ ids.toFinset).card ≤ CAP := by
    rw [hsent, Finset.empty_union, List.toFinset_card_of_nodup hnd]
    exact hlen
  have hafter := sentOf_reserve_self f d ids hf hnd hcard
  rw [hsent, Finset.empty_union] at hafter
  have hfst2 := reserve_fst _ d ids (reserve_ne_corrupt d ids hf)
  rw [hafter, Finset.sdiff_self] at hfst2
  exact ⟨hfst, hfst2⟩

theorem C1_idempotent_dedup_witness :
    (filter_and_update_sent_articles_for_webhook (DedupFile.missing) "a"
        [(3 : Nat), 5]).1 = ([3, 5] : List Nat).toFinset
      ∧ (filter_and_update_sent_articles_for_webhook
          (filter_and_update_sent_articles_for_webhook (DedupFile.missing) "a"
            [(3 : Nat), 5]).2 "a" [3, 5]).1 = ∅ :=
  C1_idempotent_dedup Nat DedupFile.missing "a" [3, 5] rfl
    (fun h => DedupFile.noConfusion h) (by decide) (by decide)

/-- C2 counterexample: register ids 1..10000 for "d", then register id 0 — the
most recent registration.  The persisted list afterwards is exactly 1..10000:
the newest id (0) was evicted while older ids (1, ..., 10000) were retained,
because the prune keeps the greatest ids in sort order, not the most recent
ones. -/
theorem C2_counterexample :
    (0 : Nat) ∈ cexCall2.1
      ∧ entryOf cexCall2.2 "d" = some cexIds
      ∧ (0 : Nat) ∉ cexIds ∧ (1 : Nat) ∈ cexIds ∧ (10000 : Nat) ∈ cexIds := by
  refine ⟨?_, cexCall2_entry, zero_notin_cexIds, one_mem_cexIds, top_mem_cexIds⟩
  rw [cexCall2_fst]
  exact Finset.mem_singleton_self 0

/-- C2 (amended): every entry a reserve call leaves in the store is either at
most 10000 ids long or is an unchanged pre-existing entry, and when the
destination written is the one asked about, every id (previous or candidate)
missing from the stored list is `≤` in id sort order than every stored id —
i.e. eviction removes the smallest ids in sort order, regardless of
registration recency. -/
theorem C2_bounded_eviction (α : Type) [LinearOrder α] [DecidableEq α]
    (f : DedupFile α) (d d' : String) (ids : List α) (lst : List α)
    (h : entryOf (filter_and_update_sent_articles_for_webhook f d ids).2 d'
      = some lst) :
    (lst.length ≤ CAP ∨ entryOf f d' = some lst)
      ∧ (d' = d → ∀ x ∈ sentOf f d ∪ ids.toFinset, x ∉ lst → ∀ y ∈ lst, x ≤ y) :=
  ⟨entry_reserve_length f d d' ids lst h,
    fun hd x hx hxn y hy => reserve_evicts_le f d ids lst (hd ▸ h) x hx hxn y hy⟩

theorem C2_bounded_eviction_witness :
    (cexIds.length ≤ CAP ∨ entryOf cexCall1.2 "d" = some cexIds)
      ∧ (0 : Nat) ≤ 1 := by
  have happ := C2_bounded_eviction Nat cexCall1.2 "d" "d" [0] cexIds
    (by rw [← cexCall2_def]; exact cexCall2_entry)
  refine ⟨happ.1, happ.2 rfl 0 ?_ zero_notin_cexIds 1 one_mem_cexIds⟩
  exact Finset.mem_union_right _ (by simp)

/-- C6 (confirmed): the recency filter keeps exactly the entries whose
effective timestamp (published, else updated; drop if neither) is at least
`now - 86400`; in particular a timestamp of exactly `now - 86400` is kept and
`now - 86401` is dropped. -/
theorem C6_recency_filter (entries : List Entry) (now : Int) (e : Entry) :
    e ∈ recentEntries entries now
      ↔ e ∈ entries ∧ ∃ ts, effectiveTime e = some ts ∧ now - 86400 ≤ ts := by
  simp only [recentEntries, List.mem_filter]
  constructor
  · rintro ⟨hmem, hcond⟩
    refine ⟨hmem, ?_⟩
    unfold isRecent at hcond
    cases he : effectiveTime e with
    | none => rw [he] at hcond; exact absurd hcond (by simp)
    | some t =>
        rw [he] at hcond
        exact ⟨t, rfl, by simpa using hcond⟩
  · rintro ⟨hmem, t, ht, hle⟩
    refine ⟨hmem, ?_⟩
    unfold isRecent
    rw [ht]
    simpa using hle

/-- C7 counterexample: on an unparseable store file the call does not treat
the store as empty: it returns the empty set (candidate 0 is not reported as
new) because the load raises and the generic handler returns the initial
`set()`. -/
theorem C7_counterexample :
    (filter_and_update_sent_articles_for_webhook (DedupFile.corrupt) "d"
        [(0 : Nat)]).1 = ∅
      ∧ (0 : Nat) ∉ (filter_and_update_sent_articles_for_webhook (DedupFile.corrupt)
          "d" [(0 : Nat)]).1 :=
  ⟨rfl, by decide⟩

/-- C7 (amended): a missing store file is created and every candidate is
returned as new; a present-but-empty file is treated as an empty store, also
returning every candidate as new; an unparseable file instead makes the call
return the empty set and leave the file unchanged.  In every case the call
returns normally (the model is a total function — the source catches the
exceptions), so the condition never propagates to the caller. -/
theorem C7_missing_or_corrupt_store (α : Type) [LinearOrder α] [DecidableEq α]
    (d : String) (ids : List α) :
    (filter_and_update_sent_articles_for_webhook (DedupFile.missing) d ids).1
        = ids.toFinset
      ∧ (entryOf (filter_and_update_sent_articles_for_webhook (DedupFile.missing) d
          ids).2 d).isSome = true
      ∧ (filter_and_update_sent_articles_for_webhook (DedupFile.emptyFile) d ids).1
        = ids.toFinset
      ∧ filter_and_update_sent_articles_for_webhook (DedupFile.corrupt) d ids
        = (∅, DedupFile.corrupt) := by
  refine ⟨rfl, ?_, ?_, rfl⟩
  · simp only [filter_and_update_sent_articles_for_webhook]
    rw [entryOf_stored_self_none]
    rfl
  · have h := reserve_fst (DedupFile.emptyFile) d ids (fun h => DedupFile.noConfusion h)
    rw [show sentOf (DedupFile.emptyFile (α := α)) d = ∅ from rfl,
      Finset.sdiff_empty] at h
    exact h

/-- C9 (confirmed): one delivery attempt is classified from its single HTTP
outcome: 200/204 → "Success", 429 → "Rate Limited", any other non-2xx →
"Error: <code>", raised transport error → "Failed to Connect".  The function
consumes exactly one response — there is no retry loop. -/
theorem C9_dispatch_classification :
    (∀ (status_code : Nat) (text : String),
      ((status_code = 200 ∨ status_code = 204) →
        send_to_webhook (HttpResult.ok status_code text) = "Success")
      ∧ (status_code = 429 →
        send_to_webhook (HttpResult.ok status_code text) = "Rate Limited")
      ∧ (¬(200 ≤ status_code ∧ status_code < 300) → status_code ≠ 429 →
        send_to_webhook (HttpResult.ok status_code text)
          = "Error: " ++ toString status_code))
    ∧ send_to_webhook HttpResult.exn = "Failed to Connect" := by
  refine ⟨fun status_code text => ⟨?_, ?_, ?_⟩, rfl⟩
  · intro h
    simp [send_to_webhook, h]
  · rintro rfl
    rfl
  · intro h2xx h429
    have hne200 : status_code ≠ 200 := fun hc => h2xx (by omega)
    have hne204 : status_code ≠ 204 := fun hc => h2xx (by omega)
    simp [send_to_webhook, hne200, hne204, h429]

theorem C9_dispatch_classification_witness :
    send_to_webhook (HttpResult.ok 404 "missing") = "Error: " ++ toString 404 :=
  (C9_dispatch_classification.1 404 "missing").2.2 (by omega) (by omega)

/-- C10 (confirmed): a reserve call for destination `d` leaves the entry of
every other destination exactly as it was (present with an unchanged list, and
absent stays absent). -/
theorem C10_frame (α : Type) [LinearOrder α] [DecidableEq α] (f : DedupFile α)
    (d d' : String) (ids : List α) (h : d' ≠ d) :
    entryOf (filter_and_update_sent_articles_for_webhook f d ids).2 d'
      = entryOf f d' :=
  entryOf_reserve_ne f d d' ids h

/-- A concrete dedup dictionary used by the C10 witness. -/
def wmB : String → Option (List Nat) := fun k => if k = "b" then some [5] else none

theorem C10_frame_witness :
    entryOf (filter_and_update_sent_articles_for_webhook (DedupFile.stored wmB) "a"
      [(1 : Nat)]).2 "b" = some [5] :=
  (C10_frame Nat (DedupFile.stored wmB) "a" "b" [1] (by decide)).trans
    (by simp [entryOf, wmB])

/-- A feed with two destinations and one recent article, for the concrete seed
scenarios. -/
def cfgTwo : FeedConfig :=
  ⟨"f2", "http://feed", none, [⟨some "w1", none⟩, ⟨some "w2", none⟩]⟩

/-- One recent article, published at epoch 0, with an id. -/
def entryX : Entry := ⟨some "x", some "http://a/x", some "t", some "s", some 0, none⟩

/-- A network oracle where every post raises a transport error. -/
def netFail : String → Entry → HttpResult := fun _ _ => HttpResult.exn

/-- C3 counterexample: on a first check with one recent article but an
unparseable dedup file, the check still records "Initial check (seeded)" while
registering nothing: destination "w1" has no dedup entry afterwards, so the
claimed "registers all N article ids for every configured destination" fails. -/
theorem C3_counterexample :
    (check_single_feed cfgTwo (fun _ => none) 200 [entryX] 0 DedupFile.corrupt
        netFail).last_post_status = some "Initial check (seeded)"
      ∧ entryOf (check_single_feed cfgTwo (fun _ => none) 200 [entryX] 0
          DedupFile.corrupt netFail).file "w1" = none := by
  constructor
  · rfl
  · rfl

/-- C3 (amended): a first check (feed id absent from FeedState) that finds at
least one recent article and has configured webhooks dispatches nothing and
records "Initial check (seeded)"; provided the dedup file is parseable (or
absent) and each destination's previous entry together with the recent ids
fits inside the 10000 cap, every configured destination with a nonempty URL
ends up with all recent (trackable) article ids registered. -/
theorem C3_seed_once (cfg : FeedConfig) (feed_state : String → Option FeedRecord)
    (status_code : Nat) (entries : List Entry) (now : Int) (f : DedupFile String)
    (net : String → Entry → HttpResult)
    (hunseen : feed_state cfg.id = none)
    (hent : entries ≠ []) (hrec : recentEntries entries now ≠ [])
    (hwh : cfg.webhooks ≠ [])
    (hf : f ≠ DedupFile.corrupt)
    (hcard : ∀ u', (sentOf f u' ∪ (allRecentIdsOf entries now).toFinset).card ≤ CAP) :
    (check_single_feed cfg feed_state status_code entries now f net).dispatches = []
      ∧ (check_single_feed cfg feed_state status_code entries now f net).last_post_status
        = some "Initial check (seeded)"
      ∧ ∀ w ∈ cfg.webhooks, ∀ u, effectiveUrl w = some u →
          (allRecentIdsOf entries now).toFinset
            ⊆ sentOf (check_single_feed cfg feed_state status_code entries now f
                net).file u := by
  have hr := check_single_feed_initial cfg feed_state status_code entries now f net
    hent hrec hwh hunseen
  rw [hr]
  have spec := seedFold_spec (allRecentIdsOf entries now)
    (allRecentIdsOf_nodup entries now) cfg.webhooks f hf hcard
  exact ⟨rfl, rfl, fun w hw u hu => spec.2.2.2 w hw u hu⟩

theorem C3_seed_once_witness :
    (check_single_feed cfgTwo (fun _ => none) 200 [entryX] 0 DedupFile.missing
        netFail).dispatches = []
      ∧ (check_single_feed cfgTwo (fun _ => none) 200 [entryX] 0 DedupFile.missing
          netFail).last_post_status = some "Initial check (seeded)"
      ∧ (allRecentIdsOf [entryX] 0).toFinset
          ⊆ sentOf (check_single_feed cfgTwo (fun _ => none) 200 [entryX] 0
              DedupFile.missing netFail).file "w1" := by
  have h := C3_seed_once cfgTwo (fun _ => none) 200 [entryX] 0 DedupFile.missing
    netFail rfl (by decide) (by decide) (by decide)
    (fun hc => DedupFile.noConfusion hc)
    (by
      intro u'
      rw [show sentOf (DedupFile.missing : DedupFile String) u' = ∅ from rfl,
        Finset.empty_union]
      decide)
  exact ⟨h.1, h.2.1, h.2.2 ⟨some "w1", none⟩ (by decide) "w1" (by decide)⟩

/-- C4 counterexample: a check whose fetch failed (no entries, status 500)
still returns normally, and the scheduler's state update then makes the feed
id present in FeedState — the feed becomes SEEDED despite the failed fetch. -/
theorem C4_counterexample :
    (check_single_feed cfgTwo (fun _ => none) 500 [] 0 DedupFile.missing
        netFail).status_code = 500
      ∧ ((schedulerStep (fun _ => none) "f2"
          (some ((check_single_feed cfgTwo (fun _ => none) 500 [] 0 DedupFile.missing
              netFail).status_code,
            (check_single_feed cfgTwo (fun _ => none) 500 [] 0 DedupFile.missing
              netFail).last_post_status)) 0) "f2").isSome = true := by
  constructor
  · rfl
  · rfl

/-- C4 (amended): the feed id becomes present in FeedState after any check
that returns (regardless of fetch status); presence is preserved by every
later scheduler step (the state machine is terminal); a check that raises
leaves the state untouched. -/
theorem C4_seed_state_machine :
    (∀ (st : FeedStateMap) (feed_id fid' : String)
        (outcome : Option (Nat × Option String)) (now : Int),
      (st fid').isSome = true
        → ((schedulerStep st feed_id outcome now) fid').isSome = true)
    ∧ (∀ (st : FeedStateMap) (feed_id : String) (status_code : Nat)
        (lp : Option String) (now : Int),
      ((schedulerStep st feed_id (some (status_code, lp)) now) feed_id).isSome = true)
    ∧ ∀ (st : FeedStateMap) (feed_id : String) (now : Int),
      schedulerStep st feed_id none now = st := by
  refine ⟨?_, ?_, ?_⟩
  · intro st feed_id fid' outcome now h
    cases outcome with
    | none => exact h
    | some p =>
        obtain ⟨c, lp⟩ := p
        exact updateFeedState_mono st feed_id fid' c lp now h
  · intro st feed_id c lp now
    exact updateFeedState_self st feed_id c lp now
  · intro st feed_id now
    rfl

/-- The feed-state map holding one feed "g", for the C4 witness. -/
def stG : FeedStateMap := fun k => if k = "g" then some ⟨200, 0, none⟩ else none

theorem C4_seed_state_machine_witness :
    ((schedulerStep stG "f1" (some (500, none)) 0) "g").isSome = true :=
  C4_seed_state_machine.1 stG "f1" "g" (some (500, none)) 0 (by decide)

/-- C5 (confirmed): on a SEEDED-feed check whose configured destination URLs
are pairwise distinct, the dispatch sequence restricted to any destination is
ascending in effective timestamp — articles newly returned by the reserve call
are delivered oldest first. -/
theorem C5_delivery_ordering (cfg : FeedConfig)
    (feed_state : String → Option FeedRecord) (status_code : Nat)
    (entries : List Entry) (now : Int) (f : DedupFile String)
    (net : String → Entry → HttpResult) (u : String)
    (hseeded : feed_state cfg.id ≠ none)
    (hurls : (cfg.webhooks.filterMap effectiveUrl).Nodup) :
    List.Sorted (· ≤ ·)
      ((((check_single_feed cfg feed_state status_code entries now f
          net).dispatches).filter (fun p => p.1 == u)).map (fun p => sortKey p.2)) := by
  by_cases hent : entries = []
  · subst hent
    rw [check_single_feed_no_entries]
    exact List.sorted_nil
  · by_cases hrec : recentEntries entries now = []
    · rw [check_single_feed_no_recent cfg feed_state status_code entries now f net hrec]
      exact List.sorted_nil
    · by_cases hwh : cfg.webhooks = []
      · rw [check_single_feed_no_webhooks cfg feed_state status_code entries now f net
          hent hrec hwh]
        exact List.sorted_nil
      · rw [check_single_feed_seeded cfg feed_state status_code entries now f net
          hent hrec hwh hseeded]
        exact foldl_processWebhook_filter_sorted net (allRecentIdsOf entries now)
          (articleMapOf entries now) u cfg.webhooks ⟨status_code, none, f, []⟩ hurls rfl

/-- One feed already SEEDED, for the C5/C8 witnesses. -/
def cfgOne : FeedConfig := ⟨"f3", "http://feed", none, [⟨some "w", none⟩]⟩

/-- Feed state in which "f3" has already been checked. -/
def stF3 : FeedStateMap := fun k => if k = "f3" then some ⟨200, 0, none⟩ else none

/-- Three recent articles with timestamps 100, 50, 150. -/
def entryA : Entry := ⟨some "a", some "http://a", some "ta", some "sa", some 100, none⟩

def entryB : Entry := ⟨some "b", some "http://b", some "tb", some "sb", some 50, none⟩

def entryC : Entry := ⟨some "c", some "http://c", some "tc", some "sc", some 150, none⟩

/-- A network oracle where every post returns HTTP 204. -/
def netOk : String → Entry → HttpResult := fun _ _ => HttpResult.ok 204 ""

theorem C5_delivery_ordering_witness :
    List.Sorted (· ≤ ·)
      ((((check_single_feed cfgOne stF3 200 [entryA, entryB, entryC] 150
          DedupFile.missing netOk).dispatches).filter (fun p => p.1 == "w")).map
        (fun p => sortKey p.2))
    ∧ (check_single_feed cfgOne stF3 200 [entryA, entryB, entryC] 150
        DedupFile.missing netOk).dispatches ≠ [] :=
  ⟨C5_delivery_ordering cfgOne stF3 200 [entryA, entryB, entryC] 150
      DedupFile.missing netOk "w" (by decide) (by decide),
    by decide⟩

/-- C8 counterexample: with 10001 ids total, id 0 is returned as new by the
reserve call yet is absent from the persisted per-destination list immediately
afterwards (the prune evicted it), so "the persisted set still contains every
id returned as new" fails even though nothing was rolled back. -/
theorem C8_counterexample :
    (0 : Nat) ∈ cexCall2.1
      ∧ (0 : Nat) ∉ (entryOf cexCall2.2 "d").getD [] := by
  constructor
  · rw [cexCall2_fst]
    exact Finset.mem_singleton_self 0
  · rw [cexCall2_entry]
    exact zero_notin_cexIds

/-- C8 (amended): the dedup file and the dispatch sequence of a check do not
depend on the dispatch outcomes at all — a failed dispatch neither rolls back
the registration nor triggers a retry — and, whenever the destination's
previous entry together with the candidates fits inside the 10000 cap, every
id returned as new is contained in the persisted set right after the reserve
call. -/
theorem C8_no_rollback :
    (∀ (cfg : FeedConfig) (feed_state : String → Option FeedRecord)
        (status_code : Nat) (entries : List Entry) (now : Int) (f : DedupFile String)
        (net1 net2 : String → Entry → HttpResult),
      (check_single_feed cfg feed_state status_code entries now f net1).file
          = (check_single_feed cfg feed_state status_code entries now f net2).file
        ∧ (check_single_feed cfg feed_state status_code entries now f net1).dispatches
          = (check_single_feed cfg feed_state status_code entries now f
              net2).dispatches)
    ∧ ∀ (α : Type) [LinearOrder α] [DecidableEq α] (f : DedupFile α)
        (d : String) (ids : List α),
      f ≠ DedupFile.corrupt → ids.Nodup →
      (sentOf f d ∪ ids.toFinset).card ≤ CAP →
      ∀ x ∈ (filter_and_update_sent_articles_for_webhook f d ids).1,
        x ∈ sentOf (filter_and_update_sent_articles_for_webhook f d ids).2 d := by
  constructor
  · intro cfg feed_state status_code entries now f net1 net2
    by_cases hent : entries = []
    · subst hent
      rw [check_single_feed_no_entries, check_single_feed_no_entries]
      exact ⟨rfl, rfl⟩
    · by_cases hrec : recentEntries entries now = []
      · rw [check_single_feed_no_recent cfg feed_state status_code entries now f net1
          hrec, check_single_feed_no_recent cfg feed_state status_code entries now f
          net2 hrec]
        exact ⟨rfl, rfl⟩
      · by_cases hwh : cfg.webhooks = []
        · rw [check_single_feed_no_webhooks cfg feed_state status_code entries now f
            net1 hent hrec hwh, check_single_feed_no_webhooks cfg feed_state
            status_code entries now f net2 hent hrec hwh]
          exact ⟨rfl, rfl⟩
        · by_cases hseen : feed_state cfg.id = none
          · rw [check_single_feed_initial cfg feed_state status_code entries now f
              net1 hent hrec hwh hseen, check_single_feed_initial cfg feed_state
              status_code entries now f net2 hent hrec hwh hseen]
            exact ⟨rfl, rfl⟩
          · rw [check_single_feed_seeded cfg feed_state status_code entries now f
              net1 hent hrec hwh hseen, check_single_feed_seeded cfg feed_state
              status_code entries now f net2 hent hrec hwh hseen]
            exact foldl_processWebhook_net net1 net2 (allRecentIdsOf entries now)
              (articleMapOf entries now) cfg.webhooks ⟨status_code, none, f, []⟩
              ⟨status_code, none, f, []⟩ rfl rfl
  · intro α _ _ f d ids hf hnd hcard x hx
    rw [sentOf_reserve_self f d ids hf hnd hcard]
    rw [reserve_fst f d ids hf] at hx
    exact Finset.mem_union_right _ (Finset.mem_sdiff.mp hx).1

theorem C8_no_rollback_witness :
    (3 : Nat) ∈ sentOf (filter_and_update_sent_articles_for_webhook
      (DedupFile.missing) "a" [(3 : Nat), 5]).2 "a" :=
  C8_no_rollback.2 Nat DedupFile.missing "a" [3, 5]
    (fun h => DedupFile.noConfusion h) (by decide) (by decide) 3 (by decide)
